import Mathlib

/-!
# osilib/minio: version records, version lookup, purge status and log targets

A shallow embedding of

* `cmd/storage-datatypes.go`: the `FileInfo` / `FileInfoVersions` records,
  `findVersionIndex`, `VersionPurgeStatusType` and `newFileInfo`;
* `cmd/logger/targets.go`: the two package-level target lists and
  `AddTarget` / `AddAuditTarget`.

`hashOrder`, which `newFileInfo` calls, is not part of the sources at hand: it
is a parameter of `newFileInfo`, and `resolveDistribution` gives it from the
description of the placement resolver in the spec. `newFileInfoIn` is
`newFileInfo` run in the state of the package-level variables, with a
`hashOrder` that may read and write them.

Conventions of the embedding:

* a Go `string` is a Lean `String`, a Go slice is a `List`, a Go `map` is an
  association list, `nil` maps and slices are the empty list;
* a Go `int` is an `Int`; where the source adds two `int`s the sum is wrapped
  to 64 bit two's complement (`intAdd`);
* a Go `error` is `Option GoError`, `none` being `nil`;
* a call that ends the program instead of returning yields `none`;
* a pointer receiver that may be `nil` is an `Option`;
* package-level variables are fields of an explicit state record that the
  functions take and return.
-/

set_option autoImplicit false

namespace Minio

/-! ## Go primitives -/

/-- Wrap an integer into the range of a 64 bit signed Go `int`. -/
def wrapInt64 (x : Int) : Int :=
  (x + 2 ^ 63) % 2 ^ 64 - 2 ^ 63

/-- Go `a + b` on `int`: addition wraps around on overflow. -/
def intAdd (a b : Int) : Int :=
  wrapInt64 (a + b)

/-- A Go `time.Time`, kept as nanoseconds; the zero value is `0`. -/
structure Time where
  nanos : Int
  deriving DecidableEq, Repr

/-- A non-nil Go `error` value, identified by its message. -/
structure GoError where
  msg : String
  deriving DecidableEq, Repr

namespace cmd

/-! ## `cmd/storage-datatypes.go` -/

/-- `VersionPurgeStatusType` is a Go string type: any string is a value. -/
abbrev VersionPurgeStatusType := String

/-- `Pending`: versioned delete replication is pending. -/
def Pending : VersionPurgeStatusType := "PENDING"

/-- `Complete`: versioned delete replication is now complete. -/
def Complete : VersionPurgeStatusType := "COMPLETE"

/-- `Failed`: versioned delete replication failed. -/
def Failed : VersionPurgeStatusType := "FAILED"

/-- `Empty` returns true if purge status was not set: `string(v) == ""`. -/
def VersionPurgeStatusType.Empty (v : VersionPurgeStatusType) : Bool :=
  decide (v = "")

/-- `Pending` returns true if the version is pending purge:
`v == Pending || v == Failed`. -/
def VersionPurgeStatusType.Pending (v : VersionPurgeStatusType) : Bool :=
  decide (v = cmd.Pending) || decide (v = cmd.Failed)

/-- Modelled from the spec: the declaration of `ObjectPartInfo` is not part of
the sources at hand; the spec describes one physical part of an upload by its
part number, size and checksum. -/
structure ObjectPartInfo where
  Number : Int
  Size : Int
  Checksum : String
  deriving DecidableEq, Repr

/-- Modelled from the spec: the declaration of `ErasureInfo` is not part of the
sources at hand; the fields are the five that `newFileInfo` assigns, which are
the ones the spec lists (algorithm identifier, data-shard count, parity-shard
count, block size, distribution). -/
structure ErasureInfo where
  Algorithm : String
  DataBlocks : Int
  ParityBlocks : Int
  BlockSize : Int
  Distribution : List Int
  deriving DecidableEq, Repr

/-- The zero value of `ErasureInfo`. -/
def ErasureInfo.zero : ErasureInfo :=
  { Algorithm := "", DataBlocks := 0, ParityBlocks := 0, BlockSize := 0, Distribution := [] }

/-- `FileInfo` represents file stat information, field for field. -/
structure FileInfo where
  Volume : String
  Name : String
  VersionID : String
  IsLatest : Bool
  Deleted : Bool
  TransitionStatus : String
  DataDir : String
  XLV1 : Bool
  ModTime : Time
  Size : Int
  Mode : Nat
  Metadata : List (String × String)
  Parts : List ObjectPartInfo
  Erasure : ErasureInfo
  MarkDeleted : Bool
  DeleteMarkerReplicationStatus : String
  VersionPurgeStatus : VersionPurgeStatusType
  Data : List Nat
  NumVersions : Int
  SuccessorModTime : Time
  deriving DecidableEq, Repr

/-- The zero value of `FileInfo`: what the named result `fi` of `newFileInfo`
holds before the assignment to `fi.Erasure`. -/
def FileInfo.zero : FileInfo :=
  { Volume := "", Name := "", VersionID := "", IsLatest := false, Deleted := false,
    TransitionStatus := "", DataDir := "", XLV1 := false, ModTime := ⟨0⟩, Size := 0,
    Mode := 0, Metadata := [], Parts := [], Erasure := ErasureInfo.zero,
    MarkDeleted := false, DeleteMarkerReplicationStatus := "",
    VersionPurgeStatus := "", Data := [], NumVersions := 0, SuccessorModTime := ⟨0⟩ }

/-- `FileInfoVersions` represents the list of versions of a given file. -/
structure FileInfoVersions where
  Volume : String
  Name : String
  IsEmptyDir : Bool
  LatestModTime : Time
  Versions : List FileInfo
  deriving DecidableEq, Repr

/-- The loop `for i, ver := range f.Versions` of `findVersionIndex`, entered at
index `i` with the entries `vers` still to visit: return the index of the first
entry whose `VersionID` is `v`, and `-1` when the entries run out. -/
def findVersionIndexFrom (v : String) : List FileInfo → Nat → Int
  | [], _ => -1
  | ver :: rest, i =>
    if ver.VersionID = v then (i : Int) else findVersionIndexFrom v rest (i + 1)

/-- `findVersionIndex` returns the version index where the version was found,
`-1` if not found. The receiver is a pointer and may be `nil` (`none`). -/
def findVersionIndex (f : Option FileInfoVersions) (v : String) : Int :=
  match f with
  | none => -1
  | some fv => if v = "" then -1 else findVersionIndexFrom v fv.Versions 0

/-- The package-level names `newFileInfo` reads and whose definitions are not
part of the sources at hand: the constants `erasureAlgorithm` and `blockSizeV2`
and the function `hashOrder`. They are parameters of the embedding. A call of
`hashOrder` that ends the program instead of returning (a fatal contract
violation) is `none`. -/
structure Env where
  erasureAlgorithm : String
  blockSizeV2 : Int
  hashOrder : String → Int → Option (List Int)

/-- `newFileInfo` initializes a new `FileInfo` and allocates a fresh erasure
info: the named result starts as the zero value and only `Erasure` is assigned.
The function has no error result and no check of its own; it does not return
(`none`) only when its call of `hashOrder` does not. -/
def newFileInfo (env : Env) (object : String) (dataBlocks parityBlocks : Int) :
    Option FileInfo :=
  match env.hashOrder object (intAdd dataBlocks parityBlocks) with
  | none => none
  | some distribution =>
    some { FileInfo.zero with
      Erasure :=
        { Algorithm := env.erasureAlgorithm
          DataBlocks := dataBlocks
          ParityBlocks := parityBlocks
          BlockSize := env.blockSizeV2
          Distribution := distribution } }

/-- Assignment to the exported field, `fi.VersionPurgeStatus = status`: the
only way the sources at hand give to change the purge status of a version.
`FileInfo` is a plain struct and `VersionPurgeStatusType` a plain string type,
so the assignment is not checked against the status the version had. -/
def FileInfo.setVersionPurgeStatus (fi : FileInfo) (status : VersionPurgeStatusType) :
    FileInfo :=
  { fi with VersionPurgeStatus := status }

/-- A sequence of assignments to `fi.VersionPurgeStatus`, made in order. -/
def FileInfo.setVersionPurgeStatuses (fi : FileInfo) :
    List VersionPurgeStatusType → FileInfo
  | [] => fi
  | status :: rest => (fi.setVersionPurgeStatus status).setVersionPurgeStatuses rest

/-! ### The placement resolver, from the spec -/

/-- Modelled from the spec: the two ingredients of the placement resolver that
section 4.1 names and leaves open, the hash of the object key that seeds the
pseudo-random generator, and the generator itself, given by the step from one
of its values to the next. -/
structure Resolver where
  hash : String → Nat
  next : Nat → Nat

/-- Exchange the entries at positions `i` and `j` of a slice. -/
def swapAt (l : List Int) (i j : Nat) : List Int :=
  (l.set i (l.getD j 0)).set j (l.getD i 0)

/-- Modelled from the spec: the Fisher-Yates shuffle of section 4.1, the
function `hashOrder` itself not being part of the sources at hand. Positions
`i`, `i - 1`, ..., `1` are visited in turn; at each one the generator is
advanced and the entry is exchanged with the entry at a position drawn from
`0..i`. -/
def fisherYates (next : Nat → Nat) : Nat → Nat → List Int → List Int
  | 0, _, l => l
  | i + 1, seed, l =>
    fisherYates next i (next seed) (swapAt l (i + 1) (next seed % (i + 2)))

/-- Modelled from the spec: `resolveDistribution(objectKey, totalShards)` of
section 4.1, which stands for the function `hashOrder` that `newFileInfo`
calls and that is not part of the sources at hand. The generator is seeded with
the hash of the object key and `[1..totalShards]` is shuffled;
`totalShards ≤ 0` is a fatal contract violation (`none`). -/
def resolveDistribution (r : Resolver) (objectKey : String) (totalShards : Int) :
    Option (List Int) :=
  if totalShards ≤ 0 then none
  else
    some (fisherYates r.next (totalShards.toNat - 1) (r.hash objectKey)
      ((List.range' 1 totalShards.toNat).map Int.ofNat))

/-- The environment in which `hashOrder` is the resolver of the spec. -/
def specEnv (r : Resolver) (erasureAlgorithm : String) (blockSizeV2 : Int) : Env :=
  { erasureAlgorithm := erasureAlgorithm
    blockSizeV2 := blockSizeV2
    hashOrder := resolveDistribution r }

end cmd

namespace logger

/-! ## `cmd/logger/targets.go` -/

/-- A value implementing the `Target` interface, given by what its four methods
return: `Validate` yields `none` for `nil`; `Send` takes the entry (rendered as
a string) and the error kind. The methods are taken to be functions of the
target alone: they do not touch the two target lists. -/
structure Target where
  Endpoint : String
  Validate : Option GoError
  Send : String → String → Option GoError
  String : String

/-- The package-level variables `Targets` and `AuditTargets`. -/
structure State where
  Targets : List Target
  AuditTargets : List Target

/-- The state at package initialisation: `Targets = []Target{}` and
`AuditTargets = []Target{}`. -/
def State.init : State :=
  { Targets := [], AuditTargets := [] }

/-- `AddAuditTarget` adds a new audit logger target to the list of enabled
loggers; it returns the error of `t.Validate()` when there is one. -/
def AddAuditTarget (t : Target) (s : State) : Option GoError × State :=
  match t.Validate with
  | some err => (some err, s)
  | none => (none, { s with AuditTargets := s.AuditTargets ++ [t] })

/-- `AddTarget` adds a new logger target to the list of enabled loggers; it
returns the error of `t.Validate()` when there is one. -/
def AddTarget (t : Target) (s : State) : Option GoError × State :=
  match t.Validate with
  | some err => (some err, s)
  | none => (none, { s with Targets := s.Targets ++ [t] })

/-- One call of the package's two registration functions. -/
inductive Call where
  | addTarget (t : Target)
  | addAuditTarget (t : Target)

/-- The state after one call, whatever it returned. -/
def Call.step (c : Call) (s : State) : State :=
  match c with
  | .addTarget t => (AddTarget t s).2
  | .addAuditTarget t => (AddAuditTarget t s).2

/-- The state after a finite sequence of calls, made in order. -/
def runCalls : List Call → State → State
  | [], s => s
  | c :: cs, s => runCalls cs (c.step s)

end logger

/-! ## Calls of both packages against the process state -/

/-- The names `newFileInfo` reads, for a run inside the process: as `cmd.Env`,
but the call of `hashOrder`, whose body is not part of the sources at hand, is
given the state of the package-level variables and hands back the state it
leaves, so that it may read and write them. -/
structure ProcEnv where
  erasureAlgorithm : String
  blockSizeV2 : Int
  hashOrder : String → Int → logger.State → Option (List Int) × logger.State

/-- `newFileInfo`, statement by statement, run in a state of the package-level
variables: the result and the state after the call. The only step that is given
the state is the call of `hashOrder`; the record is built from the zero value,
the two constants, the arguments and what that call returned. -/
def newFileInfoIn (env : ProcEnv) (object : String) (dataBlocks parityBlocks : Int)
    (s : logger.State) : Option cmd.FileInfo × logger.State :=
  let called := env.hashOrder object (intAdd dataBlocks parityBlocks) s
  (match called.1 with
    | none => none
    | some distribution =>
      some { cmd.FileInfo.zero with
        Erasure :=
          { Algorithm := env.erasureAlgorithm
            DataBlocks := dataBlocks
            ParityBlocks := parityBlocks
            BlockSize := env.blockSizeV2
            Distribution := distribution } },
    called.2)

/-- An environment whose `hashOrder` is a function of the key and the count
alone, seen from inside the process: the call hands the state back as it got
it. -/
def ProcEnv.ofEnv (env : cmd.Env) : ProcEnv :=
  { erasureAlgorithm := env.erasureAlgorithm
    blockSizeV2 := env.blockSizeV2
    hashOrder := fun key cardinality s => (env.hashOrder key cardinality, s) }

/-- One call made by the process: a registration of a log target, or a call of
`newFileInfo`. -/
inductive Op where
  | register (c : logger.Call)
  | newFileInfo (object : String) (dataBlocks parityBlocks : Int)

/-- What a call hands back: the `error` of a registration, or the record of
`newFileInfo` (`none` when that call does not return). -/
inductive Result where
  | registered (err : Option GoError)
  | fileInfo (fi : Option cmd.FileInfo)

/-- Run one call in a given state of the package-level variables: the result
and the state after it. -/
def Op.exec (env : ProcEnv) : Op → logger.State → Result × logger.State
  | .register (.addTarget t), s => (.registered (logger.AddTarget t s).1, (logger.AddTarget t s).2)
  | .register (.addAuditTarget t), s =>
    (.registered (logger.AddAuditTarget t s).1, (logger.AddAuditTarget t s).2)
  | .newFileInfo object dataBlocks parityBlocks, s =>
    (.fileInfo (newFileInfoIn env object dataBlocks parityBlocks s).1,
      (newFileInfoIn env object dataBlocks parityBlocks s).2)

/-- The state after a finite sequence of calls, made in order. -/
def stateAfter (env : ProcEnv) : List Op → logger.State → logger.State
  | [], s => s
  | op :: ops, s => stateAfter env ops (op.exec env s).2

/-! ## Sample values -/

/-- A version record that only carries a version id. -/
def sampleVersion (id : String) : cmd.FileInfo :=
  { cmd.FileInfo.zero with Volume := "bucket", Name := "report.csv", VersionID := id }

/-- A history of three versions, the second of which has the empty version id. -/
def sampleHistory : cmd.FileInfoVersions :=
  { Volume := "bucket", Name := "report.csv", IsEmptyDir := false, LatestModTime := ⟨0⟩,
    Versions := [sampleVersion "v1", sampleVersion "", sampleVersion "v2"] }

/-- A log target whose `Validate` returns `nil`. -/
def consoleTarget : logger.Target :=
  { Endpoint := "", Validate := none, Send := fun _ _ => none, String := "console" }

/-- A log target whose `Validate` returns an error. -/
def brokenTarget : logger.Target :=
  { Endpoint := "http://", Validate := some ⟨"invalid endpoint"⟩,
    Send := fun _ _ => some ⟨"unreachable"⟩, String := "http" }

/-- A state in which one general target and one audit target are registered. -/
def sampleState : logger.State :=
  { Targets := [consoleTarget], AuditTargets := [consoleTarget] }

/-- A history in which two entries share the version id `"v2"`. -/
def duplicateHistory : cmd.FileInfoVersions :=
  { Volume := "bucket", Name := "report.csv", IsEmptyDir := false, LatestModTime := ⟨0⟩,
    Versions := [sampleVersion "v1", sampleVersion "v2", sampleVersion "v3",
      sampleVersion "v2"] }

/-- A resolver for evaluation: the key is hashed to the sum of its character
codes and the generator is a linear congruential one. -/
def sampleResolver : cmd.Resolver :=
  { hash := fun key => (key.toList.map Char.toNat).sum
    next := fun x => (1103515245 * x + 12345) % 2147483648 }

/-- A version whose purge status is `Complete`. -/
def completeVersion : cmd.FileInfo :=
  { sampleVersion "v1" with VersionPurgeStatus := cmd.Complete }

/-- An environment for evaluation, with the resolver `sampleResolver`. -/
def sampleEnv : cmd.Env :=
  cmd.specEnv sampleResolver "rs-vandermonde" 1048576

/-- An environment whose `hashOrder` returns for every count: the distribution
of `sampleResolver` for a positive count, the empty slice otherwise. -/
def lenientEnv : cmd.Env :=
  { erasureAlgorithm := "rs-vandermonde"
    blockSizeV2 := 1048576
    hashOrder := fun key cardinality =>
      some ((cmd.resolveDistribution sampleResolver key cardinality).getD []) }

/-- An environment whose `hashOrder` reads a package-level variable: the slice
it returns holds the number of registered targets. -/
def driftingEnv : ProcEnv :=
  { erasureAlgorithm := "rs-vandermonde"
    blockSizeV2 := 1048576
    hashOrder := fun _ _ s => (some [(s.Targets.length : Int)], s) }

/-- Calls made before a call of `newFileInfo`: a registration, an earlier
construction and a registration that is refused. -/
def sampleOps : List Op :=
  [.register (.addTarget consoleTarget), .newFileInfo "other.csv" 2 2,
    .register (.addAuditTarget brokenTarget)]

open cmd logger

/-! ## `findVersionIndex` -/

/-- The scan never answers `-1` by finding an entry: what it returns on a hit
is the (non-negative) index of the entry. -/
theorem findVersionIndexFrom_eq_neg_one_iff (v : String) (l : List FileInfo) (i : Nat) :
    findVersionIndexFrom v l i = -1 ↔ ∀ ver ∈ l, ver.VersionID ≠ v := by
  induction l generalizing i with
  | nil => simp [findVersionIndexFrom]
  | cons ver rest ih =>
    by_cases h : ver.VersionID = v
    · have hne : (i : Int) ≠ -1 := by omega
      simp [findVersionIndexFrom, h, hne]
    · simp [findVersionIndexFrom, h, ih]

/-- A result of the scan other than `-1` is `i + k` for the position `k` of the
first entry of `l` whose `VersionID` is `v`. -/
theorem findVersionIndexFrom_found (v : String) (l : List FileInfo) (i : Nat) (r : Int)
    (h : findVersionIndexFrom v l i = r) (hr : r ≠ -1) :
    ∃ k : Nat, r = (i : Int) + k ∧ k < l.length ∧
      (l[k]?).map FileInfo.VersionID = some v ∧
      ∀ j : Nat, j < k → (l[j]?).map FileInfo.VersionID ≠ some v := by
  induction l generalizing i with
  | nil => simp [findVersionIndexFrom] at h; omega
  | cons ver rest ih =>
    by_cases hv : ver.VersionID = v
    · refine ⟨0, ?_, by simp, by simp [hv], by intro j hj; omega⟩
      simp [findVersionIndexFrom, hv] at h
      omega
    · simp only [findVersionIndexFrom, hv, if_false] at h
      obtain ⟨k, hk, hlen, hget, hfirst⟩ := ih (i + 1) h
      refine ⟨k + 1, by push_cast at hk ⊢; omega, by simp; omega, by simpa using hget, ?_⟩
      intro j hj
      cases j with
      | zero => simpa using hv
      | succ j => simpa using hfirst j (by omega)

/-- C1: `findVersionIndex` returns `-1` for every version id when the receiver
is `nil`, and for every history when the requested version id is the empty
string, also for a history that holds an entry whose `VersionID` is empty. -/
theorem findVersionIndex_nil_or_empty :
    (∀ v : String, findVersionIndex none v = -1) ∧
    (∀ f : Option FileInfoVersions, findVersionIndex f "" = -1) ∧
    (∃ ver ∈ sampleHistory.Versions, ver.VersionID = "") ∧
    findVersionIndex (some sampleHistory) "" = -1 := by
  refine ⟨fun _ => rfl, ?_, ⟨sampleVersion "", by simp [sampleHistory], rfl⟩, ?_⟩
  · intro f
    cases f <;> simp [findVersionIndex]
  · simp [findVersionIndex]

/-- C2: for a non-nil history `f` and a non-empty version id `v`,
`findVersionIndex` returns `-1` exactly when no entry of `f.Versions` has
`VersionID` equal to `v`. -/
theorem findVersionIndex_eq_neg_one_iff (f : FileInfoVersions) (v : String) (hv : v ≠ "") :
    findVersionIndex (some f) v = -1 ↔ ∀ ver ∈ f.Versions, ver.VersionID ≠ v := by
  simp only [findVersionIndex, hv, if_false]
  exact findVersionIndexFrom_eq_neg_one_iff v f.Versions 0

/-- C2 at the sample history: `"v2"` is there, so the answer is not `-1`. -/
theorem findVersionIndex_eq_neg_one_iff_witness :
    "v2" ≠ "" ∧
    (findVersionIndex (some sampleHistory) "v2" = -1 ↔
      ∀ ver ∈ sampleHistory.Versions, ver.VersionID ≠ "v2") :=
  ⟨by decide, findVersionIndex_eq_neg_one_iff sampleHistory "v2" (by decide)⟩

/-- C3: whenever `findVersionIndex f v` returns a value `i` other than `-1`,
the history is not `nil`, `0 ≤ i < len(f.Versions)` and the entry at index `i`
has `VersionID` equal to `v`. -/
theorem findVersionIndex_found (f : Option FileInfoVersions) (v : String) (i : Int)
    (h : findVersionIndex f v = i) (hi : i ≠ -1) :
    ∃ fv : FileInfoVersions, f = some fv ∧ 0 ≤ i ∧ i < (fv.Versions.length : Int) ∧
      (fv.Versions[i.toNat]?).map FileInfo.VersionID = some v := by
  cases f with
  | none => simp [findVersionIndex] at h; omega
  | some fv =>
    by_cases hv : v = ""
    · simp [findVersionIndex, hv] at h; omega
    · simp only [findVersionIndex, hv, if_false] at h
      obtain ⟨k, hk, hlen, hget, _⟩ := findVersionIndexFrom_found v fv.Versions 0 i h hi
      have hik : i = (k : Int) := by simpa using hk
      subst hik
      exact ⟨fv, rfl, by omega, by omega, by simpa using hget⟩

/-- C3 at the sample history: `"v2"` is found at index `2`. -/
theorem findVersionIndex_found_witness :
    findVersionIndex (some sampleHistory) "v2" = 2 ∧
    ∃ fv : FileInfoVersions, some sampleHistory = some fv ∧ (0 : Int) ≤ 2 ∧
      (2 : Int) < (fv.Versions.length : Int) ∧
      (fv.Versions[(2 : Int).toNat]?).map FileInfo.VersionID = some "v2" :=
  ⟨by decide, findVersionIndex_found (some sampleHistory) "v2" 2 (by decide) (by decide)⟩

/-! ## `VersionPurgeStatusType` -/

/-- C4: `v.Pending()` is true exactly when `v` is `Pending` (`"PENDING"`) or
`Failed` (`"FAILED"`); it is false for `Complete` and for the unset value. -/
theorem pending_iff :
    (∀ v : VersionPurgeStatusType,
      VersionPurgeStatusType.Pending v = true ↔ (v = "PENDING" ∨ v = "FAILED")) ∧
    cmd.Pending = "PENDING" ∧ cmd.Failed = "FAILED" ∧
    VersionPurgeStatusType.Pending cmd.Complete = false ∧
    VersionPurgeStatusType.Pending "" = false := by
  refine ⟨?_, rfl, rfl, by decide, by decide⟩
  intro v
  simp [VersionPurgeStatusType.Pending, cmd.Pending, cmd.Failed]

/-- C5: `v.Empty()` is true exactly when `v` is the unset value (the empty
string); it is false for `Pending`, `Complete` and `Failed`. -/
theorem empty_iff :
    (∀ v : VersionPurgeStatusType, VersionPurgeStatusType.Empty v = true ↔ v = "") ∧
    VersionPurgeStatusType.Empty cmd.Pending = false ∧
    VersionPurgeStatusType.Empty cmd.Complete = false ∧
    VersionPurgeStatusType.Empty cmd.Failed = false := by
  refine ⟨?_, by decide, by decide, by decide⟩
  intro v
  simp [VersionPurgeStatusType.Empty]

/-! ## `AddTarget` and `AddAuditTarget` -/

/-- The general target list before a call is a prefix of the one after it, and
so is the audit target list. -/
theorem step_prefix (c : Call) (s : State) :
    s.Targets <+: (c.step s).Targets ∧ s.AuditTargets <+: (c.step s).AuditTargets := by
  cases c with
  | addTarget t =>
    cases hv : t.Validate <;> simp [Call.step, AddTarget, hv]
  | addAuditTarget t =>
    cases hv : t.Validate <;> simp [Call.step, AddAuditTarget, hv]

/-- C6: when `t.Validate()` returns a non-nil error `e`, `AddTarget(t)` returns
`e` and `AddAuditTarget(t)` returns `e`, and both calls leave `Targets` and
`AuditTargets` as they were. -/
theorem add_invalid_refused (t : Target) (s : State) (e : GoError)
    (h : t.Validate = some e) :
    ((AddTarget t s).1 = some e ∧ (AddTarget t s).2.Targets = s.Targets ∧
      (AddTarget t s).2.AuditTargets = s.AuditTargets) ∧
    ((AddAuditTarget t s).1 = some e ∧ (AddAuditTarget t s).2.Targets = s.Targets ∧
      (AddAuditTarget t s).2.AuditTargets = s.AuditTargets) := by
  simp [AddTarget, AddAuditTarget, h]

/-- C6 at a target with an invalid endpoint, in a state with registered
targets. -/
theorem add_invalid_refused_witness :
    brokenTarget.Validate = some ⟨"invalid endpoint"⟩ ∧
    (((AddTarget brokenTarget sampleState).1 = some ⟨"invalid endpoint"⟩ ∧
      (AddTarget brokenTarget sampleState).2.Targets = sampleState.Targets ∧
      (AddTarget brokenTarget sampleState).2.AuditTargets = sampleState.AuditTargets) ∧
    ((AddAuditTarget brokenTarget sampleState).1 = some ⟨"invalid endpoint"⟩ ∧
      (AddAuditTarget brokenTarget sampleState).2.Targets = sampleState.Targets ∧
      (AddAuditTarget brokenTarget sampleState).2.AuditTargets = sampleState.AuditTargets)) :=
  ⟨rfl, add_invalid_refused brokenTarget sampleState ⟨"invalid endpoint"⟩ rfl⟩

/-- C7: when `t.Validate()` returns `nil`, `AddTarget(t)` returns `nil` and the
new `Targets` is the old one with `t` appended as its last element: the earlier
entries stay in their order, the length grows by exactly one, and `t` is added
even when it is already registered. `AddAuditTarget(t)` does the same to
`AuditTargets`. -/
theorem add_valid_appends (t : Target) (s : State) (h : t.Validate = none) :
    ((AddTarget t s).1 = none ∧ (AddTarget t s).2.Targets = s.Targets ++ [t] ∧
      (AddTarget t s).2.Targets.length = s.Targets.length + 1 ∧
      (AddTarget t s).2.Targets.getLast? = some t ∧
      (AddTarget t s).2.Targets.take s.Targets.length = s.Targets) ∧
    ((AddAuditTarget t s).1 = none ∧
      (AddAuditTarget t s).2.AuditTargets = s.AuditTargets ++ [t] ∧
      (AddAuditTarget t s).2.AuditTargets.length = s.AuditTargets.length + 1 ∧
      (AddAuditTarget t s).2.AuditTargets.getLast? = some t ∧
      (AddAuditTarget t s).2.AuditTargets.take s.AuditTargets.length = s.AuditTargets) := by
  simp [AddTarget, AddAuditTarget, h]

/-- C7 at a valid target that is already registered: it is registered a second
time. -/
theorem add_valid_appends_witness :
    consoleTarget.Validate = none ∧
    (((AddTarget consoleTarget sampleState).1 = none ∧
      (AddTarget consoleTarget sampleState).2.Targets = sampleState.Targets ++ [consoleTarget] ∧
      (AddTarget consoleTarget sampleState).2.Targets.length = sampleState.Targets.length + 1 ∧
      (AddTarget consoleTarget sampleState).2.Targets.getLast? = some consoleTarget ∧
      (AddTarget consoleTarget sampleState).2.Targets.take sampleState.Targets.length =
        sampleState.Targets) ∧
    ((AddAuditTarget consoleTarget sampleState).1 = none ∧
      (AddAuditTarget consoleTarget sampleState).2.AuditTargets =
        sampleState.AuditTargets ++ [consoleTarget] ∧
      (AddAuditTarget consoleTarget sampleState).2.AuditTargets.length =
        sampleState.AuditTargets.length + 1 ∧
      (AddAuditTarget consoleTarget sampleState).2.AuditTargets.getLast? = some consoleTarget ∧
      (AddAuditTarget consoleTarget sampleState).2.AuditTargets.take
        sampleState.AuditTargets.length = sampleState.AuditTargets)) :=
  ⟨rfl, add_valid_appends consoleTarget sampleState rfl⟩

/-- C8: the two registries are independent: `AddTarget(t)` leaves `AuditTargets`
unchanged and `AddAuditTarget(t)` leaves `Targets` unchanged, for every target
and every prior state, whether validation succeeds or fails. -/
theorem registries_independent (t : Target) (s : State) :
    (AddTarget t s).2.AuditTargets = s.AuditTargets ∧
    (AddAuditTarget t s).2.Targets = s.Targets := by
  cases hv : t.Validate <;> simp [AddTarget, AddAuditTarget, hv]

/-- C9: over every finite sequence of `AddTarget` and `AddAuditTarget` calls,
succeeding or failing, `Targets` before the sequence is a prefix of `Targets`
after it, and likewise for `AuditTargets`: neither list shrinks or reorders. -/
theorem runCalls_prefix (calls : List Call) (s : State) :
    (s.Targets <+: (runCalls calls s).Targets ∧
      s.AuditTargets <+: (runCalls calls s).AuditTargets) ∧
    (s.Targets.length ≤ (runCalls calls s).Targets.length ∧
      s.AuditTargets.length ≤ (runCalls calls s).AuditTargets.length) := by
  have key : ∀ (cs : List Call) (s : State),
      s.Targets <+: (runCalls cs s).Targets ∧
        s.AuditTargets <+: (runCalls cs s).AuditTargets := by
    intro cs
    induction cs with
    | nil => intro s; exact ⟨List.prefix_refl _, List.prefix_refl _⟩
    | cons c cs ih =>
      intro s
      have h1 := step_prefix c s
      have h2 := ih (c.step s)
      exact ⟨h1.1.trans h2.1, h1.2.trans h2.2⟩
  exact ⟨key calls s, (key calls s).1.length_le, (key calls s).2.length_le⟩

/-! ## `newFileInfo` -/

/-- A sum that fits a 64 bit signed `int` is not changed by the wrap-around. -/
theorem intAdd_eq_add (a b : Int) (hlo : -2 ^ 63 ≤ a + b) (hhi : a + b < 2 ^ 63) :
    intAdd a b = a + b := by
  unfold intAdd wrapInt64
  omega

/-- C10: for every object name and every `dataBlocks`, `parityBlocks`, whenever
the call `hashOrder(object, dataBlocks+parityBlocks)` returns, `newFileInfo`
returns a record with `Erasure.DataBlocks = dataBlocks`,
`Erasure.ParityBlocks = parityBlocks`, `Erasure.Algorithm = erasureAlgorithm`,
`Erasure.BlockSize = blockSizeV2` and `Erasure.Distribution` equal to what
`hashOrder(object, dataBlocks+parityBlocks)` returned, the sum being the Go
`int` sum. -/
theorem newFileInfo_erasure (env : Env) (object : String) (dataBlocks parityBlocks : Int)
    (distribution : List Int)
    (h : env.hashOrder object (intAdd dataBlocks parityBlocks) = some distribution) :
    ∃ fi : FileInfo, newFileInfo env object dataBlocks parityBlocks = some fi ∧
      fi.Erasure.DataBlocks = dataBlocks ∧
      fi.Erasure.ParityBlocks = parityBlocks ∧
      fi.Erasure.Algorithm = env.erasureAlgorithm ∧
      fi.Erasure.BlockSize = env.blockSizeV2 ∧
      fi.Erasure.Distribution = distribution := by
  simp [newFileInfo, h]

/-- C10 at `"report.csv"` with 4 data and 2 parity shards, the resolver being
`sampleResolver`. -/
theorem newFileInfo_erasure_witness :
    sampleEnv.hashOrder "report.csv" (intAdd 4 2) = some [1, 3, 5, 2, 6, 4] ∧
    ∃ fi : FileInfo, newFileInfo sampleEnv "report.csv" 4 2 = some fi ∧
      fi.Erasure.DataBlocks = 4 ∧
      fi.Erasure.ParityBlocks = 2 ∧
      fi.Erasure.Algorithm = sampleEnv.erasureAlgorithm ∧
      fi.Erasure.BlockSize = sampleEnv.blockSizeV2 ∧
      fi.Erasure.Distribution = [1, 3, 5, 2, 6, 4] :=
  ⟨by decide, newFileInfo_erasure sampleEnv "report.csv" 4 2 [1, 3, 5, 2, 6, 4] (by decide)⟩

/-- The call of `newFileInfo` returns exactly when its call of `hashOrder`
does: the function adds no failure of its own. -/
theorem newFileInfo_eq_none_iff (env : Env) (object : String) (dataBlocks parityBlocks : Int) :
    newFileInfo env object dataBlocks parityBlocks = none ↔
      env.hashOrder object (intAdd dataBlocks parityBlocks) = none := by
  unfold newFileInfo
  cases env.hashOrder object (intAdd dataBlocks parityBlocks) <;> simp

/-! ## The placement resolver -/

/-- Exchanging two entries keeps the length. -/
theorem swapAt_length (l : List Int) (i j : Nat) : (swapAt l i j).length = l.length := by
  simp [swapAt]

/-- Exchanging the entries at two positions of the slice rearranges it. -/
theorem swapAt_perm (l : List Int) (i j : Nat) (hi : i < l.length) (hj : j < l.length) :
    (swapAt l i j).Perm l := by
  by_cases hij : i = j
  · subst hij
    have hself : l.set i l[i] = l := by
      apply List.ext_getElem (by simp)
      intro n h1 h2
      by_cases hn : i = n
      · subst hn; simp
      · simp [List.getElem_set, hn]
    unfold swapAt
    rw [List.getD_eq_getElem _ _ hi, List.set_set, hself]
  · rw [List.perm_iff_count]
    intro b
    have hci : l[i] = b → 0 < l.count b :=
      fun h => h ▸ List.count_pos_iff.mpr (List.getElem_mem hi)
    have hj2 : j < (l.set i l[j]).length := by simpa using hj
    have hget : (l.set i l[j])[j] = l[j] := by
      simp [List.getElem_set, hij]
    simp only [swapAt, List.getD_eq_getElem _ _ hi, List.getD_eq_getElem _ _ hj]
    rw [List.count_set _ _ _ _ hj2, List.count_set _ _ _ _ hi, hget]
    generalize l[i] = x at hci ⊢
    generalize l[j] = y
    generalize l.count b = c at hci ⊢
    by_cases h1 : x = b <;> by_cases h2 : y = b <;> simp [h1, h2] <;> have := hci <;> omega

/-- The shuffle keeps the length of the slice. -/
theorem fisherYates_length (next : Nat → Nat) (i seed : Nat) (l : List Int) :
    (fisherYates next i seed l).length = l.length := by
  induction i generalizing seed l with
  | zero => rfl
  | succ i ih => simp [fisherYates, ih, swapAt_length]

/-- The shuffle started at a position inside the slice rearranges it, whatever
the generator draws. -/
theorem fisherYates_perm (next : Nat → Nat) (i seed : Nat) (l : List Int)
    (hi : i < l.length) : (fisherYates next i seed l).Perm l := by
  induction i generalizing seed l with
  | zero => exact List.Perm.refl l
  | succ i ih =>
    have hj : next seed % (i + 2) < l.length :=
      lt_of_lt_of_le (Nat.mod_lt _ (by omega)) (by omega)
    have hswap := swapAt_perm l (i + 1) (next seed % (i + 2)) hi hj
    have hlen := swapAt_length l (i + 1) (next seed % (i + 2))
    exact (ih (next seed) _ (by omega)).trans hswap

/-- For a positive shard count `n` the resolver returns a slice of length `n`
that is a rearrangement of `[1..n]`. -/
theorem resolveDistribution_perm (r : Resolver) (objectKey : String) (n : Int) (hn : 0 < n) :
    ∃ d : List Int, resolveDistribution r objectKey n = some d ∧
      (d.length : Int) = n ∧ d.Perm ((List.range' 1 n.toNat).map Int.ofNat) := by
  have hpos : ¬ n ≤ 0 := by omega
  unfold resolveDistribution
  rw [if_neg hpos]
  refine ⟨_, rfl, ?_, ?_⟩
  · rw [fisherYates_length]
    simp
    omega
  · apply fisherYates_perm
    simp
    omega

/-! ## `newFileInfo` on the resolver of the spec -/

/-- C11: with `hashOrder` the resolver of the spec, for every object name and
every `dataBlocks`, `parityBlocks` with `dataBlocks+parityBlocks > 0` (the Go
`int` sum), `newFileInfo` returns a record whose `Erasure.Distribution` has
length `dataBlocks+parityBlocks` and is a permutation of
`[1..dataBlocks+parityBlocks]`. -/
theorem newFileInfo_distribution_perm (r : Resolver) (erasureAlgorithm : String)
    (blockSizeV2 : Int) (object : String) (dataBlocks parityBlocks : Int)
    (h : 0 < intAdd dataBlocks parityBlocks) :
    ∃ fi : FileInfo,
      newFileInfo (specEnv r erasureAlgorithm blockSizeV2) object dataBlocks parityBlocks
        = some fi ∧
      (fi.Erasure.Distribution.length : Int) = intAdd dataBlocks parityBlocks ∧
      fi.Erasure.Distribution.Perm
        ((List.range' 1 (intAdd dataBlocks parityBlocks).toNat).map Int.ofNat) := by
  obtain ⟨d, hd, hlen, hperm⟩ :=
    resolveDistribution_perm r object (intAdd dataBlocks parityBlocks) h
  have hd2 : (specEnv r erasureAlgorithm blockSizeV2).hashOrder object
      (intAdd dataBlocks parityBlocks) = some d := hd
  unfold newFileInfo
  rw [hd2]
  exact ⟨_, rfl, hlen, hperm⟩

/-- C11 at `"report.csv"` with 4 data and 2 parity shards: a 6-element
permutation of `[1..6]`. -/
theorem newFileInfo_distribution_perm_witness :
    0 < intAdd 4 2 ∧
    ∃ fi : FileInfo, newFileInfo sampleEnv "report.csv" 4 2 = some fi ∧
      (fi.Erasure.Distribution.length : Int) = intAdd 4 2 ∧
      fi.Erasure.Distribution.Perm ((List.range' 1 (intAdd 4 2).toNat).map Int.ofNat) :=
  ⟨by decide,
    newFileInfo_distribution_perm sampleResolver "rs-vandermonde" 1048576 "report.csv" 4 2
      (by decide)⟩

/-! ## `newFileInfo` with no shard at all -/

/-- C12, as stated, fails: with no data and no parity shard, and a `hashOrder`
that returns, `newFileInfo` returns a version record, with both shard counts
`0`; it reports nothing to its caller. -/
theorem newFileInfo_zero_shards_returns :
    intAdd 0 0 = 0 ∧
    newFileInfo lenientEnv "report.csv" 0 0 =
      some { FileInfo.zero with
        Erasure :=
          { Algorithm := "rs-vandermonde", DataBlocks := 0, ParityBlocks := 0,
            BlockSize := 1048576, Distribution := [] } } ∧
    ¬ newFileInfo lenientEnv "report.csv" 0 0 = none := by
  decide

/-- C12, amended: `newFileInfo` does not check the shard counts and has no
error result. With `dataBlocks + parityBlocks == 0` it returns exactly when its
call `hashOrder(object, 0)` returns, and the record then has the two shard
counts as given and the distribution that call returned. -/
theorem newFileInfo_zero_shards_unchecked (env : Env) (object : String)
    (dataBlocks parityBlocks : Int) (h : intAdd dataBlocks parityBlocks = 0) :
    (newFileInfo env object dataBlocks parityBlocks = none ↔
      env.hashOrder object 0 = none) ∧
    (∀ distribution : List Int, env.hashOrder object 0 = some distribution →
      newFileInfo env object dataBlocks parityBlocks =
        some { FileInfo.zero with
          Erasure :=
            { Algorithm := env.erasureAlgorithm
              DataBlocks := dataBlocks
              ParityBlocks := parityBlocks
              BlockSize := env.blockSizeV2
              Distribution := distribution } }) := by
  unfold newFileInfo
  rw [h]
  constructor
  · cases env.hashOrder object 0 <;> simp
  · intro distribution hd
    rw [hd]

/-- C12, amended, at three data shards and minus three parity shards, a sum of
zero. -/
theorem newFileInfo_zero_shards_unchecked_witness :
    intAdd 3 (-3) = 0 ∧
    ((newFileInfo lenientEnv "report.csv" 3 (-3) = none ↔
      lenientEnv.hashOrder "report.csv" 0 = none) ∧
    (∀ distribution : List Int, lenientEnv.hashOrder "report.csv" 0 = some distribution →
      newFileInfo lenientEnv "report.csv" 3 (-3) =
        some { FileInfo.zero with
          Erasure :=
            { Algorithm := lenientEnv.erasureAlgorithm
              DataBlocks := 3
              ParityBlocks := -3
              BlockSize := lenientEnv.blockSizeV2
              Distribution := distribution } })) :=
  ⟨by decide, newFileInfo_zero_shards_unchecked lenientEnv "report.csv" 3 (-3) (by decide)⟩

/-! ## `newFileInfo` inside the process -/

/-- With a `hashOrder` that is a function of the key and the count alone, the
run of `newFileInfo` inside the process hands back what `newFileInfo` returns
and the state it was given. -/
theorem newFileInfoIn_ofEnv (env : Env) (object : String) (dataBlocks parityBlocks : Int)
    (s : State) :
    newFileInfoIn (ProcEnv.ofEnv env) object dataBlocks parityBlocks s =
      (newFileInfo env object dataBlocks parityBlocks, s) := by
  simp only [newFileInfoIn, newFileInfo, ProcEnv.ofEnv]

/-- A `hashOrder` that reads the target list makes the record depend on the
registered targets: the run of `newFileInfo` is not independent of the state by
the shape of its definition. -/
theorem newFileInfoIn_drifting :
    (newFileInfoIn driftingEnv "report.csv" 4 2 State.init).1 ≠
      (newFileInfoIn driftingEnv "report.csv" 4 2 sampleState).1 := by
  simp [newFileInfoIn, driftingEnv, State.init, sampleState, FileInfo.zero]

/-- C13: shard placement is deterministic. Let the call
`hashOrder(object, dataBlocks+parityBlocks)` leave the package-level variables
as they are and return the same in every state of them. Then two calls of
`newFileInfo` with these arguments hand back identical records, hence identical
`Erasure.Distribution` sequences, whatever state the log target lists are in
and whatever calls were made before each of them, and each call leaves the
state as it found it. -/
theorem newFileInfo_deterministic (env : ProcEnv) (object : String)
    (dataBlocks parityBlocks : Int)
    (hkeep : ∀ s : State,
      (env.hashOrder object (intAdd dataBlocks parityBlocks) s).2 = s)
    (hsame : ∀ s s' : State,
      (env.hashOrder object (intAdd dataBlocks parityBlocks) s).1 =
        (env.hashOrder object (intAdd dataBlocks parityBlocks) s').1)
    (earlier earlier' : List Op) (s s' : State) :
    ((Op.newFileInfo object dataBlocks parityBlocks).exec env (stateAfter env earlier s)).1 =
      ((Op.newFileInfo object dataBlocks parityBlocks).exec env
        (stateAfter env earlier' s')).1 ∧
    (newFileInfoIn env object dataBlocks parityBlocks (stateAfter env earlier s)).1.map
        (fun fi => fi.Erasure.Distribution) =
      (newFileInfoIn env object dataBlocks parityBlocks (stateAfter env earlier' s')).1.map
        (fun fi => fi.Erasure.Distribution) ∧
    ((Op.newFileInfo object dataBlocks parityBlocks).exec env (stateAfter env earlier s)).2 =
      stateAfter env earlier s := by
  have hrec : (newFileInfoIn env object dataBlocks parityBlocks (stateAfter env earlier s)).1 =
      (newFileInfoIn env object dataBlocks parityBlocks (stateAfter env earlier' s')).1 := by
    simp only [newFileInfoIn]
    rw [hsame (stateAfter env earlier s) (stateAfter env earlier' s')]
  refine ⟨?_, ?_, ?_⟩
  · simp only [Op.exec]
    rw [hrec]
  · rw [hrec]
  · simp only [Op.exec, newFileInfoIn]
    exact hkeep _

/-- C13 with the resolver of the spec, at `"report.csv"` with 4 data and 2
parity shards: once in the initial state, once after three other calls made in
a state with registered targets. -/
theorem newFileInfo_deterministic_witness :
    (∀ s : State,
      ((ProcEnv.ofEnv sampleEnv).hashOrder "report.csv" (intAdd 4 2) s).2 = s) ∧
    (∀ s s' : State,
      ((ProcEnv.ofEnv sampleEnv).hashOrder "report.csv" (intAdd 4 2) s).1 =
        ((ProcEnv.ofEnv sampleEnv).hashOrder "report.csv" (intAdd 4 2) s').1) ∧
    (((Op.newFileInfo "report.csv" 4 2).exec (ProcEnv.ofEnv sampleEnv)
        (stateAfter (ProcEnv.ofEnv sampleEnv) [] State.init)).1 =
      ((Op.newFileInfo "report.csv" 4 2).exec (ProcEnv.ofEnv sampleEnv)
        (stateAfter (ProcEnv.ofEnv sampleEnv) sampleOps sampleState)).1 ∧
    (newFileInfoIn (ProcEnv.ofEnv sampleEnv) "report.csv" 4 2
        (stateAfter (ProcEnv.ofEnv sampleEnv) [] State.init)).1.map
        (fun fi => fi.Erasure.Distribution) =
      (newFileInfoIn (ProcEnv.ofEnv sampleEnv) "report.csv" 4 2
        (stateAfter (ProcEnv.ofEnv sampleEnv) sampleOps sampleState)).1.map
        (fun fi => fi.Erasure.Distribution) ∧
    ((Op.newFileInfo "report.csv" 4 2).exec (ProcEnv.ofEnv sampleEnv)
        (stateAfter (ProcEnv.ofEnv sampleEnv) [] State.init)).2 =
      stateAfter (ProcEnv.ofEnv sampleEnv) [] State.init) :=
  ⟨fun _ => rfl, fun _ _ => rfl,
    newFileInfo_deterministic (ProcEnv.ofEnv sampleEnv) "report.csv" 4 2
      (fun _ => rfl) (fun _ _ => rfl) [] sampleOps State.init sampleState⟩

/-! ## The purge status of a version -/

/-- C14, as stated, fails: a version whose `VersionPurgeStatus` is `Complete`
is assigned `Pending`, and its status is `Pending` afterwards, not `Complete`:
nothing rejects the change. -/
theorem complete_status_changes :
    completeVersion.VersionPurgeStatus = cmd.Complete ∧
    (completeVersion.setVersionPurgeStatus cmd.Pending).VersionPurgeStatus = cmd.Pending ∧
    ¬ (completeVersion.setVersionPurgeStatus cmd.Pending).VersionPurgeStatus = cmd.Complete := by
  decide

/-- C14, amended: the purge status is a plain string field without a
transition check. Every assignment is accepted and leaves the version with the
status assigned, whatever status it had, `Complete` included, and with every
other field as it was; so every sequence of assignments ends in the last status
assigned, and starting from the empty status the sequence `Pending`, `Failed`,
`Pending`, `Complete` is accepted and ends in `Complete`. -/
theorem purge_status_assignment :
    (∀ (fi : FileInfo) (status : VersionPurgeStatusType),
      (fi.setVersionPurgeStatus status).VersionPurgeStatus = status ∧
      { fi.setVersionPurgeStatus status with VersionPurgeStatus := fi.VersionPurgeStatus }
        = fi) ∧
    (∀ (fi : FileInfo) (statuses : List VersionPurgeStatusType)
      (status : VersionPurgeStatusType),
      (fi.setVersionPurgeStatuses (statuses ++ [status])).VersionPurgeStatus = status) ∧
    VersionPurgeStatusType.Empty FileInfo.zero.VersionPurgeStatus = true ∧
    (FileInfo.zero.setVersionPurgeStatuses
      [cmd.Pending, cmd.Failed, cmd.Pending, cmd.Complete]).VersionPurgeStatus
        = cmd.Complete := by
  refine ⟨fun fi status => ⟨rfl, rfl⟩, ?_, by decide, by decide⟩
  intro fi statuses
  induction statuses generalizing fi with
  | nil => intro status; rfl
  | cons st rest ih =>
    intro status
    exact ih (fi.setVersionPurgeStatus st) status

/-! ## `findVersionIndex`, continued -/

/-- C15: lookup inverts indexing when version ids are unique: in a history
whose entries have pairwise distinct `VersionID`s, for an index
`i < len(f.Versions)` whose entry has a non-empty `VersionID`,
`findVersionIndex(f, f.Versions[i].VersionID)` returns exactly `i`. -/
theorem findVersionIndex_of_nodup (f : FileInfoVersions) (i : Nat)
    (hnodup : (f.Versions.map FileInfo.VersionID).Nodup)
    (hi : i < f.Versions.length) (hne : f.Versions[i].VersionID ≠ "") :
    findVersionIndex (some f) f.Versions[i].VersionID = (i : Int) := by
  simp only [findVersionIndex, hne, if_false]
  have hfound : findVersionIndexFrom f.Versions[i].VersionID f.Versions 0 ≠ -1 := by
    rw [Ne, findVersionIndexFrom_eq_neg_one_iff]
    intro hall
    exact hall f.Versions[i] (List.getElem_mem hi) rfl
  obtain ⟨k, hk, hlen, hget, _⟩ :=
    findVersionIndexFrom_found f.Versions[i].VersionID f.Versions 0 _ rfl hfound
  have hki : k = i := by
    have hk2 : k < (f.Versions.map FileInfo.VersionID).length := by simpa using hlen
    have hi2 : i < (f.Versions.map FileInfo.VersionID).length := by simpa using hi
    have heq : (f.Versions.map FileInfo.VersionID)[k] =
        (f.Versions.map FileInfo.VersionID)[i] := by
      rw [List.getElem?_eq_getElem hlen] at hget
      simpa using hget
    exact (hnodup.getElem_inj_iff).mp heq
  rw [hk, hki]
  simp

/-- C15 at the sample history, index `2`. -/
theorem findVersionIndex_of_nodup_witness :
    (sampleHistory.Versions.map FileInfo.VersionID).Nodup ∧
    (sampleHistory.Versions.get ⟨2, by decide⟩).VersionID ≠ "" ∧
    findVersionIndex (some sampleHistory)
      (sampleHistory.Versions.get ⟨2, by decide⟩).VersionID = (2 : Int) :=
  ⟨by decide, by decide,
    findVersionIndex_of_nodup sampleHistory 2 (by decide) (by decide) (by decide)⟩

/-- C16: `findVersionIndex` returns the first match: when the result is
`i ≥ 0`, the history is not `nil` and no entry at an index `j < i` has
`VersionID` equal to `v`. -/
theorem findVersionIndex_first_match (f : Option FileInfoVersions) (v : String) (i : Int)
    (h : findVersionIndex f v = i) (hi : 0 ≤ i) :
    ∃ fv : FileInfoVersions, f = some fv ∧
      ∀ j : Nat, (j : Int) < i → (fv.Versions[j]?).map FileInfo.VersionID ≠ some v := by
  cases f with
  | none => simp [findVersionIndex] at h; omega
  | some fv =>
    by_cases hv : v = ""
    · simp [findVersionIndex, hv] at h; omega
    · simp only [findVersionIndex, hv, if_false] at h
      obtain ⟨k, hk, _, _, hfirst⟩ :=
        findVersionIndexFrom_found v fv.Versions 0 i h (by omega)
      refine ⟨fv, rfl, ?_⟩
      intro j hj
      exact hfirst j (by omega)

/-- C16 at a history in which the entries at index `1` and `3` share the
version id `"v2"`: the result is `1`. -/
theorem findVersionIndex_first_match_witness :
    findVersionIndex (some duplicateHistory) "v2" = 1 ∧
    ∃ fv : FileInfoVersions, some duplicateHistory = some fv ∧
      ∀ j : Nat, (j : Int) < 1 → (fv.Versions[j]?).map FileInfo.VersionID ≠ some "v2" :=
  ⟨by decide,
    findVersionIndex_first_match (some duplicateHistory) "v2" 1 (by decide) (by decide)⟩

/-! ## `VersionPurgeStatusType`, continued -/

/-- C17: for every status `v`, `Empty()` and `Pending()` are never both true,
and both are false exactly when `v` is none of `""`, `"PENDING"` and
`"FAILED"`: so for `Complete`, and for a differently-cased spelling such as
`"pending"`. -/
theorem empty_pending_exclusive :
    (∀ v : VersionPurgeStatusType,
      ¬ (VersionPurgeStatusType.Empty v = true ∧ VersionPurgeStatusType.Pending v = true)) ∧
    (∀ v : VersionPurgeStatusType,
      (VersionPurgeStatusType.Empty v = false ∧ VersionPurgeStatusType.Pending v = false) ↔
        (v ≠ "" ∧ v ≠ "PENDING" ∧ v ≠ "FAILED")) ∧
    (VersionPurgeStatusType.Empty cmd.Complete = false ∧
      VersionPurgeStatusType.Pending cmd.Complete = false) ∧
    (VersionPurgeStatusType.Empty "pending" = false ∧
      VersionPurgeStatusType.Pending "pending" = false) := by
  refine ⟨?_, ?_, by decide, by decide⟩
  · intro v hboth
    have h1 : v = "" := by simpa [VersionPurgeStatusType.Empty] using hboth.1
    subst h1
    exact absurd hboth.2 (by decide)
  · intro v
    simp [VersionPurgeStatusType.Empty, VersionPurgeStatusType.Pending, cmd.Pending, cmd.Failed]

/-! ## `newFileInfo`, continued -/

/-- C18: `newFileInfo` sets only the `Erasure` field: whenever its call of
`hashOrder` returns, the record it returns is the zero value but for `Erasure`;
`Name` and `Volume` are empty, `VersionID` is empty, `IsLatest`, `Deleted` and
`MarkDeleted` are false, `Size` and `NumVersions` are `0`, `Parts`, `Metadata`
and `Data` are empty and `VersionPurgeStatus` is `Empty()`. -/
theorem newFileInfo_only_erasure (env : Env) (object : String) (dataBlocks parityBlocks : Int)
    (distribution : List Int)
    (h : env.hashOrder object (intAdd dataBlocks parityBlocks) = some distribution) :
    ∃ fi : FileInfo, newFileInfo env object dataBlocks parityBlocks = some fi ∧
      fi = { FileInfo.zero with Erasure := fi.Erasure } ∧
      (fi.Name = "" ∧ fi.Volume = "" ∧ fi.VersionID = "") ∧
      (fi.IsLatest = false ∧ fi.Deleted = false ∧ fi.MarkDeleted = false) ∧
      (fi.Size = 0 ∧ fi.NumVersions = 0) ∧
      (fi.Parts = [] ∧ fi.Metadata = [] ∧ fi.Data = []) ∧
      VersionPurgeStatusType.Empty fi.VersionPurgeStatus = true := by
  unfold newFileInfo
  rw [h]
  exact ⟨_, rfl, rfl, ⟨rfl, rfl, rfl⟩, ⟨rfl, rfl, rfl⟩, ⟨rfl, rfl⟩, ⟨rfl, rfl, rfl⟩, rfl⟩

/-- C18 at an object name that is not empty: the name is not stored. -/
theorem newFileInfo_only_erasure_witness :
    sampleEnv.hashOrder "a" (intAdd 4 2) = some [2, 6, 4, 1, 3, 5] ∧
    ∃ fi : FileInfo, newFileInfo sampleEnv "a" 4 2 = some fi ∧
      fi = { FileInfo.zero with Erasure := fi.Erasure } ∧
      (fi.Name = "" ∧ fi.Volume = "" ∧ fi.VersionID = "") ∧
      (fi.IsLatest = false ∧ fi.Deleted = false ∧ fi.MarkDeleted = false) ∧
      (fi.Size = 0 ∧ fi.NumVersions = 0) ∧
      (fi.Parts = [] ∧ fi.Metadata = [] ∧ fi.Data = []) ∧
      VersionPurgeStatusType.Empty fi.VersionPurgeStatus = true :=
  ⟨by decide, newFileInfo_only_erasure sampleEnv "a" 4 2 [2, 6, 4, 1, 3, 5] (by decide)⟩

end Minio
